import Mathlib

/-!
Shallow embedding of the solar-dashboard data pipeline
(`src/app/utils.py` and `src/app/main.py`).

Tables are modelled as a list of column names together with a list of rows;
a row is an association list from column names to cell values.  A cell value
is either the missing-value marker (`NaN` in the dataframe library), a
rational number (numeric cells), or a raw string.  Reading a column that is
absent from a row yields the missing marker, mirroring how concatenation of
frames with different columns surfaces missing values.
-/

/-- Cell values: missing marker, numeric, or raw string. -/
inductive Val where
  | na : Val
  | num : ℚ → Val
  | str : String → Val
deriving DecidableEq, Repr

/-- A row maps column names to values (association list, first entry wins). -/
abbrev Row := List (String × Val)

/-- A dataframe: column names plus rows. -/
structure Table where
  cols : List String
  rows : List Row
deriving DecidableEq, Repr

/-- First value bound to a key in an association list. -/
def alistGet? {α : Type} (c : String) : List (String × α) → Option α
  | [] => none
  | p :: ps => if p.1 = c then some p.2 else alistGet? c ps

/-- Reading a cell; a column with no entry in the row reads as missing. -/
def getVal (r : Row) (c : String) : Val :=
  (alistGet? c r).getD Val.na

/-- Numeric value of the digit list (most significant first); empty list is 0. -/
def digitsVal (cs : List Char) : ℚ :=
  cs.foldl (fun a c => 10 * a + ((c.toNat - 48 : ℕ) : ℚ)) 0

/-- Parse a decimal literal (optional sign, integer part, optional fractional
part), the embedding of the numeric parsing done by `pd.to_numeric`.
Returns `none` for strings that do not parse as a number. -/
def parseNum (s : String) : Option ℚ :=
  let signed : ℤ × List Char :=
    match s.data with
    | '-' :: rest => (-1, rest)
    | '+' :: rest => (1, rest)
    | cs => (1, cs)
  let sgn := signed.1
  let body := signed.2
  let intPart := body.takeWhile Char.isDigit
  let rest := body.dropWhile Char.isDigit
  match rest with
  | [] => if intPart.isEmpty then none else some (sgn * digitsVal intPart)
  | '.' :: frac =>
      if frac.all Char.isDigit && !(intPart.isEmpty && frac.isEmpty) then
        some (sgn * (digitsVal intPart + digitsVal frac / (10 : ℚ) ^ frac.length))
      else none
  | _ => none

/-- Embedding of `pd.to_numeric(·, errors="coerce")` on one cell: numbers and
the missing marker pass through, strings parse to a number or become missing. -/
def toNumeric : Val → Val
  | Val.na => Val.na
  | Val.num q => Val.num q
  | Val.str s =>
      match parseNum s with
      | some q => Val.num q
      | none => Val.na

/-- One assignment `out[c] = pd.to_numeric(out[c], errors="coerce")`:
every cell of column `c` is replaced by its coerced value. -/
def setColNumeric (c : String) (rows : List Row) : List Row :=
  rows.map (fun r => r.map (fun p => if p.1 = c then (p.1, toNumeric p.2) else p))

/-- Embedding of `coerce_numeric` (src/app/utils.py lines 4-9): iterate over
the candidate column names, coercing each one that is present in the table.
Total (never raises), returns a new table. -/
def coerce_numeric (df : Table) (cols : List String) : Table :=
  { cols := df.cols
    rows := cols.foldl (fun rs c => if c ∈ df.cols then setColNumeric c rs else rs) df.rows }

/-- Comparison of a cell with a numeric threshold, the embedding of the
dataframe comparison `df[ghi_col] > threshold`: a missing or non-numeric cell
is not greater than the threshold. -/
def valGt (v : Val) (threshold : ℚ) : Bool :=
  match v with
  | Val.num q => decide (threshold < q)
  | _ => false

/-- Embedding of `daylight_filter` (src/app/utils.py lines 11-14): if the
column is absent return the table unchanged (a copy in the source), otherwise
keep exactly the rows whose cell is strictly greater than the threshold. -/
def daylight_filter (df : Table) (ghi_col : String) (threshold : ℚ) : Table :=
  if ghi_col ∈ df.cols then
    { cols := df.cols
      rows := df.rows.filter (fun r => valGt (getVal r ghi_col) threshold) }
  else df

/-- Per-row effect of coercing the listed columns: every entry whose column is
both listed and present in the table is coerced, the rest are untouched. -/
def rowCoerce (tcols cols : List String) (r : Row) : Row :=
  r.map (fun p => if p.1 ∈ cols ∧ p.1 ∈ tcols then (p.1, toNumeric p.2) else p)

theorem toNumeric_idem (v : Val) : toNumeric (toNumeric v) = toNumeric v := by
  cases v with
  | na => rfl
  | num q => rfl
  | str s =>
      simp only [toNumeric]
      cases parseNum s <;> rfl

theorem setColNumeric_map_rowCoerce (tcols cols : List String) (c : String)
    (hc : c ∈ tcols) (rows : List Row) :
    (setColNumeric c rows).map (rowCoerce tcols cols)
      = rows.map (rowCoerce tcols (c :: cols)) := by
  simp only [setColNumeric, List.map_map]
  apply List.map_congr_left
  intro r _
  simp only [Function.comp, rowCoerce, List.map_map]
  apply List.map_congr_left
  intro p _
  by_cases h1 : p.1 = c
  · by_cases h2 : p.1 ∈ cols
    · simp [h1, h2, hc, toNumeric_idem]
    · simp [h1, h2, hc, toNumeric_idem]
  · by_cases h2 : p.1 ∈ cols
    · simp [h1, h2]
    · simp [h1, h2]

theorem rowCoerce_cons_not_mem (tcols cols : List String) (c : String)
    (hc : c ∉ tcols) (rows : List Row) :
    rows.map (rowCoerce tcols cols) = rows.map (rowCoerce tcols (c :: cols)) := by
  apply List.map_congr_left
  intro r _
  unfold rowCoerce
  apply List.map_congr_left
  intro p _
  by_cases h1 : p.1 = c
  · simp [h1, hc]
  · simp [h1]

theorem coerce_foldl_eq (tcols : List String) :
    ∀ (cols : List String) (rows : List Row),
      cols.foldl (fun rs c => if c ∈ tcols then setColNumeric c rs else rs) rows
        = rows.map (rowCoerce tcols cols) := by
  intro cols
  induction cols with
  | nil =>
      intro rows
      have h : ∀ r : Row, rowCoerce tcols [] r = r := by
        intro r
        unfold rowCoerce
        simp
      have h2 : List.map (rowCoerce tcols []) rows = List.map id rows :=
        List.map_congr_left (fun r _ => h r)
      rw [List.foldl_nil, h2, List.map_id]
  | cons c cs ih =>
      intro rows
      simp only [List.foldl_cons]
      by_cases hc : c ∈ tcols
      · rw [if_pos hc, ih, setColNumeric_map_rowCoerce tcols cs c hc]
      · rw [if_neg hc, ih, rowCoerce_cons_not_mem tcols cs c hc]

/-- Rows of a coerced table: every row undergoes `rowCoerce`. -/
theorem coerce_rows (df : Table) (cols : List String) :
    (coerce_numeric df cols).rows = df.rows.map (rowCoerce df.cols cols) :=
  coerce_foldl_eq df.cols cols df.rows

theorem getVal_mapIf (g : Val → Val) (hg : g Val.na = Val.na)
    (P : String → Prop) [DecidablePred P] (r : Row) (c : String) :
    getVal (r.map (fun p => if P p.1 then (p.1, g p.2) else p)) c
      = if P c then g (getVal r c) else getVal r c := by
  induction r with
  | nil =>
      simp only [List.map_nil, getVal, alistGet?, Option.getD_none]
      split <;> simp [hg]
  | cons p ps ih =>
      by_cases hP : P p.1
      · by_cases hpc : p.1 = c
        · subst hpc
          simp [getVal, alistGet?, hP]
        · simp only [List.map_cons, if_pos hP, getVal, alistGet?, if_neg hpc]
          exact ih
      · by_cases hpc : p.1 = c
        · subst hpc
          simp [getVal, alistGet?, hP]
        · simp only [List.map_cons, if_neg hP, getVal, alistGet?, if_neg hpc]
          exact ih

/-- Cell-level effect of `rowCoerce`. -/
theorem getVal_rowCoerce (tcols cols : List String) (r : Row) (c : String) :
    getVal (rowCoerce tcols cols r) c
      = if c ∈ cols ∧ c ∈ tcols then toNumeric (getVal r c) else getVal r c := by
  exact getVal_mapIf toNumeric rfl (fun s => s ∈ cols ∧ s ∈ tcols) r c

theorem getD_map_nil (f : Row → Row) (hf : f [] = []) :
    ∀ (l : List Row) (i : ℕ), (l.map f).getD i [] = f (l.getD i []) := by
  intro l
  induction l with
  | nil => intro i; simp [hf]
  | cons x xs ih =>
      intro i
      cases i with
      | zero => rfl
      | succ j => simpa using ih j

theorem rowCoerce_nil (tcols cols : List String) : rowCoerce tcols cols [] = [] := rfl

/-- Cell-level characterisation of `coerce_numeric` by row index. -/
theorem coerce_getVal (df : Table) (cols : List String) (i : ℕ) (c : String) :
    getVal ((coerce_numeric df cols).rows.getD i []) c
      = if c ∈ cols ∧ c ∈ df.cols then toNumeric (getVal (df.rows.getD i []) c)
        else getVal (df.rows.getD i []) c := by
  rw [coerce_rows, getD_map_nil _ (rowCoerce_nil df.cols cols), getVal_rowCoerce]

/-- C3: `daylight_filter` returns the table unchanged when the column is
absent; otherwise it keeps exactly the rows whose cell in that column is
strictly greater than the threshold, and a cell passes the comparison iff it
is a number strictly greater than the threshold (missing and non-numeric
cells are excluded). -/
theorem daylight_filter_spec (df : Table) (c : String) (thr : ℚ) :
    (c ∉ df.cols → daylight_filter df c thr = df)
    ∧ (c ∈ df.cols →
        daylight_filter df c thr
          = { cols := df.cols
              rows := df.rows.filter (fun r => valGt (getVal r c) thr) })
    ∧ (∀ v : Val, valGt v thr = true ↔ ∃ q : ℚ, v = Val.num q ∧ thr < q) := by
  refine ⟨fun h => ?_, fun h => ?_, fun v => ?_⟩
  · simp [daylight_filter, h]
  · simp [daylight_filter, h]
  · cases v <;> simp [valGt]

/-- Witness for C3 on a concrete table. -/
theorem daylight_filter_spec_witness :
    daylight_filter { cols := ["DNI"], rows := [[("DNI", Val.num 7)]] } "GHI" 20
      = { cols := ["DNI"], rows := [[("DNI", Val.num 7)]] } :=
  (daylight_filter_spec { cols := ["DNI"], rows := [[("DNI", Val.num 7)]] } "GHI" 20).1
    (by decide)

/-- C6: the daylight filter is antitone in the threshold: raising the
threshold only removes rows, so the rows surviving the higher threshold are a
subset of those surviving the lower one. -/
theorem daylight_filter_antitone (df : Table) (c : String) (t₁ t₂ : ℚ)
    (h : t₁ < t₂) :
    ∀ r : Row, r ∈ (daylight_filter df c t₂).rows → r ∈ (daylight_filter df c t₁).rows := by
  intro r hr
  unfold daylight_filter at *
  by_cases hc : c ∈ df.cols
  · simp only [if_pos hc] at hr ⊢
    rw [List.mem_filter] at hr ⊢
    refine ⟨hr.1, ?_⟩
    have h2 := hr.2
    cases hv : getVal r c with
    | na => rw [hv] at h2; simp [valGt] at h2
    | str s => rw [hv] at h2; simp [valGt] at h2
    | num q =>
        rw [hv] at h2
        simp only [valGt, decide_eq_true_eq] at h2
        simp only [valGt, decide_eq_true_eq]
        exact lt_trans h h2
  · simp only [if_neg hc] at hr ⊢
    exact hr

/-- Witness for C6 on a concrete table and thresholds. -/
theorem daylight_filter_antitone_witness :
    [("GHI", Val.num 50)]
      ∈ (daylight_filter { cols := ["GHI"], rows := [[("GHI", Val.num 50)]] } "GHI" 1).rows :=
  daylight_filter_antitone
    { cols := ["GHI"], rows := [[("GHI", Val.num 50)]] } "GHI" 1 2 (by norm_num)
    [("GHI", Val.num 50)] (by decide)

/-- C4: `coerce_numeric` leaves the column list unchanged (names absent from
the table are silently skipped and no column is added), preserves the row
count, and replaces exactly the cells of columns present in both the table
and the candidate list by their coerced value (`toNumeric` maps unparseable
strings to the missing marker); all other cells are untouched.  The function
is total, so it never raises. -/
theorem coerce_numeric_spec (df : Table) (cols : List String) :
    (coerce_numeric df cols).cols = df.cols
    ∧ (coerce_numeric df cols).rows.length = df.rows.length
    ∧ ∀ (i : ℕ) (c : String),
        getVal ((coerce_numeric df cols).rows.getD i []) c
          = if c ∈ cols ∧ c ∈ df.cols then toNumeric (getVal (df.rows.getD i []) c)
            else getVal (df.rows.getD i []) c := by
  refine ⟨rfl, ?_, ?_⟩
  · rw [coerce_rows, List.length_map]
  · intro i c
    exact coerce_getVal df cols i c

theorem rowCoerce_idem (tcols cols : List String) (r : Row) :
    rowCoerce tcols cols (rowCoerce tcols cols r) = rowCoerce tcols cols r := by
  unfold rowCoerce
  rw [List.map_map]
  apply List.map_congr_left
  intro p _
  by_cases h : p.1 ∈ cols ∧ p.1 ∈ tcols
  · simp [Function.comp, h, toNumeric_idem]
  · simp [Function.comp, h]

/-- C5: numeric coercion is idempotent: coercing an already coerced table
with the same column list returns it unchanged. -/
theorem coerce_numeric_idem (df : Table) (cols : List String) :
    coerce_numeric (coerce_numeric df cols) cols = coerce_numeric df cols := by
  have hcols : (coerce_numeric df cols).cols = df.cols := rfl
  have h1 : (coerce_numeric (coerce_numeric df cols) cols).rows
      = (coerce_numeric df cols).rows.map (rowCoerce df.cols cols) := by
    rw [coerce_rows, hcols]
  have h2 : (coerce_numeric df cols).rows.map (rowCoerce df.cols cols)
      = (coerce_numeric df cols).rows := by
    rw [coerce_rows, List.map_map]
    apply List.map_congr_left
    intro r _
    exact rowCoerce_idem df.cols cols r
  have hc2 : (coerce_numeric (coerce_numeric df cols) cols).cols
      = (coerce_numeric df cols).cols := rfl
  cases hrows : (coerce_numeric (coerce_numeric df cols) cols) with
  | mk a b =>
      have hb : b = (coerce_numeric df cols).rows := by
        rw [← h2, ← h1, hrows]
      have ha : a = (coerce_numeric df cols).cols := by
        rw [← hc2, hrows]
      rw [ha, hb]

/-- C10: `coerce_numeric` is pure (it builds a new table; in this embedding
all functions are effect-free, matching the `df.copy()` in the source): the
column list, the row count and the row order are preserved, and every cell in
a column not named in the candidate list is identical to the input cell. -/
theorem coerce_numeric_frame (df : Table) (cols : List String) :
    (coerce_numeric df cols).cols = df.cols
    ∧ (coerce_numeric df cols).rows.length = df.rows.length
    ∧ ∀ (i : ℕ) (c : String), c ∉ cols →
        getVal ((coerce_numeric df cols).rows.getD i []) c
          = getVal (df.rows.getD i []) c := by
  refine ⟨rfl, ?_, ?_⟩
  · rw [coerce_rows, List.length_map]
  · intro i c hc
    rw [coerce_getVal]
    simp [hc]

/-- Concrete two-column table used by witnesses. -/
def sampleTable : Table :=
  { cols := ["Country", "GHI"]
    rows := [[("Country", Val.str "Benin"), ("GHI", Val.str "12")]] }

/-- Witness for C10 on a concrete table and a column outside the list. -/
theorem coerce_numeric_frame_witness :
    getVal ((coerce_numeric sampleTable ["GHI"]).rows.getD 0 []) "Country"
      = getVal (sampleTable.rows.getD 0 []) "Country" :=
  (coerce_numeric_frame sampleTable ["GHI"]).2.2 0 "Country" (by decide)

/-- Glob matching with the `*` wildcard (the only wildcard used by the
patterns in the source): `*` matches any sequence of characters within the
file name.  Embedding of `pathlib.Path.glob` pattern matching. -/
def globMatch : List Char → List Char → Bool
  | [], cs => cs.isEmpty
  | '*' :: ps, cs => cs.tails.any (fun t => globMatch ps t)
  | p :: ps, [] => (p = '*') && globMatch ps []
  | p :: ps, c :: cs => (p = c) && globMatch ps cs

/-- First path matching the first pattern that has at least one match: the
body of the inner `for pat in patterns` loop with its `break`.  Directory
entries are modelled as the list of file names in listing order, so
`found[0]` is the head of the filtered list. -/
def firstMatch (patterns : List String) (names : List String) : Option String :=
  patterns.findSome? (fun pat => (names.filter (fun n => globMatch pat.data n.data)).head?)

/-- The fixed label-to-patterns mapping of `find_country_files`. -/
def globs : List (String × List String) :=
  [("Benin", ["benin*clean.csv", "benin_*.csv", "benin.csv"]),
   ("Togo", ["togo*clean.csv", "togo_*.csv", "togo.csv"]),
   ("Sierra Leone", ["sierraleone*clean.csv", "sierra*clean.csv", "sierraleone.csv"])]

/-- Embedding of `find_country_files` (src/app/utils.py lines 16-39).  The
directory is `none` when it does not exist and otherwise the list of file
names it contains; paths are modelled by the file names.  Returns the ordered
label-to-path mapping built by the loop; no exception is ever raised (the
function is total). -/
def find_country_files (data_dir : Option (List String)) : List (String × String) :=
  match data_dir with
  | none => []
  | some names =>
      globs.foldl
        (fun mapping cp =>
          match firstMatch cp.2 names with
          | some path => mapping ++ [(cp.1, path)]
          | none => mapping)
        []

/-- C7: an absent directory yields an empty mapping; for each recognised
label the mapping holds exactly the result of trying its ordered pattern
list and taking the first match of the first pattern that matches
(`firstMatch`), so labels with no match are absent; labels outside the
recognised set never appear; and on a directory holding both
`benin_clean.csv` and `benin.csv` the pattern `benin*clean.csv` wins, mapping
"Benin" to `benin_clean.csv`. -/
theorem find_country_files_spec :
    find_country_files none = []
    ∧ (∀ (names : List String) (c : String) (ps : List String),
        (c, ps) ∈ globs →
          alistGet? c (find_country_files (some names)) = firstMatch ps names)
    ∧ (∀ (names : List String) (c : String),
        c ∉ globs.map Prod.fst →
          alistGet? c (find_country_files (some names)) = none)
    ∧ find_country_files (some ["benin_clean.csv", "benin.csv"])
        = [("Benin", "benin_clean.csv")] := by
  refine ⟨rfl, ?_, ?_, by decide⟩
  · intro names c ps hmem
    simp only [globs, List.mem_cons, List.not_mem_nil, or_false] at hmem
    rcases hmem with h | h | h <;>
      rw [Prod.mk.injEq] at h <;>
        obtain ⟨rfl, rfl⟩ := h <;>
          simp only [find_country_files, globs, List.foldl_cons, List.foldl_nil] <;>
            cases hB : firstMatch ["benin*clean.csv", "benin_*.csv", "benin.csv"] names <;>
              cases hT : firstMatch ["togo*clean.csv", "togo_*.csv", "togo.csv"] names <;>
                cases hS : firstMatch
                    ["sierraleone*clean.csv", "sierra*clean.csv", "sierraleone.csv"] names <;>
                  simp [alistGet?]
  · intro names c hc
    simp only [globs, List.map_cons, List.map_nil, List.mem_cons, List.not_mem_nil,
      or_false, not_or] at hc
    obtain ⟨h1, h2, h3⟩ := hc
    simp only [find_country_files, globs, List.foldl_cons, List.foldl_nil]
    cases hB : firstMatch ["benin*clean.csv", "benin_*.csv", "benin.csv"] names <;>
      cases hT : firstMatch ["togo*clean.csv", "togo_*.csv", "togo.csv"] names <;>
        cases hS : firstMatch
            ["sierraleone*clean.csv", "sierra*clean.csv", "sierraleone.csv"] names <;>
          simp [alistGet?, Ne.symm h1, Ne.symm h2, Ne.symm h3]

/-- Witness for C7: the "Benin" entry of a concrete directory listing is
exactly the first match of the Benin pattern list. -/
theorem find_country_files_spec_witness :
    alistGet? "Benin" (find_country_files (some ["togo.csv", "benin.csv"]))
      = firstMatch ["benin*clean.csv", "benin_*.csv", "benin.csv"]
          ["togo.csv", "benin.csv"] :=
  find_country_files_spec.2.1 ["togo.csv", "benin.csv"] "Benin"
    ["benin*clean.csv", "benin_*.csv", "benin.csv"] (by decide)

/-- Code-point comparison of strings (the order used by the dataframe
library when sorting group keys, which are Python strings). -/
def charListLe : List Char → List Char → Bool
  | [], _ => true
  | _ :: _, [] => false
  | a :: as, b :: bs => if a = b then charListLe as bs else decide (a < b)

/-- String comparison on the underlying character lists. -/
def strLeb (a b : String) : Bool :=
  charListLe a.data b.data

/-- Group key of a row: its `Country` label.  The program synthesises the
`Country` column as a string label at load time; a missing label is dropped,
as `groupby` drops missing keys. -/
def keyOf (r : Row) : Option String :=
  match getVal r "Country" with
  | Val.str s => some s
  | _ => none

/-- Distinct group keys in ascending order: `groupby("Country")` with its
default key sorting. -/
def countryKeys (rows : List Row) : List String :=
  List.insertionSort (fun a b => strLeb a b = true) (rows.filterMap keyOf).dedup

/-- The values of one metric column within one country group. -/
def groupVals (rows : List Row) (k : String) (metric : String) : List Val :=
  (rows.filter (fun r => keyOf r == some k)).map (fun r => getVal r metric)

/-- Numeric content of a cell; missing and non-numeric cells have none,
mirroring how the aggregations skip missing values. -/
def toNum : Val → Option ℚ
  | Val.num q => some q
  | _ => none

/-- Mean of the non-missing values of a column slice; missing when there is
no value, as `Series.mean` yields NaN on an all-missing slice. -/
def meanQ (vals : List Val) : Option ℚ :=
  let ns := vals.filterMap toNum
  if ns.length = 0 then none else some (ns.sum / (ns.length : ℚ))

/-- Ascending sort of rationals, used by the median. -/
def sortQ (l : List ℚ) : List ℚ :=
  List.insertionSort (fun a b : ℚ => a ≤ b) l

/-- Median of the non-missing values (`Series.median`): middle element of the
sorted values, or the average of the two middle elements; missing when there
is no value. -/
def medianQ (vals : List Val) : Option ℚ :=
  let ns := sortQ (vals.filterMap toNum)
  if ns.length = 0 then none
  else if ns.length % 2 = 1 then some (ns.getD (ns.length / 2) 0)
  else some ((ns.getD (ns.length / 2 - 1) 0 + ns.getD (ns.length / 2) 0) / 2)

/-- Sample variance (`ddof = 1`) of the non-missing values; missing when
fewer than two values are present (`Series.std` yields NaN there). -/
def sampleVar (vals : List Val) : Option ℚ :=
  let ns := vals.filterMap toNum
  if ns.length ≤ 1 then none
  else
    let m := ns.sum / (ns.length : ℚ)
    some ((ns.map (fun x => (x - m) ^ 2)).sum / ((ns.length : ℚ) - 1))

/-- Nearest integer (ties to even) to the square root of a nonnegative
rational, computed through the integer square root of the floor; used to
express the once-rounded standard deviation exactly in ℚ. -/
def sqrtRoundHalfEven (x : ℚ) : ℤ :=
  let n := Nat.sqrt x.floor.toNat
  if 4 * x < (((2 * n + 1 : ℕ) : ℚ)) ^ 2 then (n : ℤ)
  else if (((2 * n + 1 : ℕ) : ℚ)) ^ 2 < 4 * x then (n : ℤ) + 1
  else if n % 2 = 0 then (n : ℤ) else (n : ℤ) + 1

/-- Standard-deviation cell of the summary: the sample standard deviation
(square root of `sampleVar`) rounded to 2 decimal places by the final
`.round(2)`; rounding a square root to 2 places is exactly
`sqrtRoundHalfEven` of `10000` times the variance, divided by `100`. -/
def stdCell (vals : List Val) : Option ℚ :=
  (sampleVar vals).map (fun v => ((sqrtRoundHalfEven (v * 10000) : ℚ)) / 100)

/-- Round to the nearest integer, ties to even: the rounding used by the
dataframe library's `round`. -/
def roundHalfEven (x : ℚ) : ℤ :=
  let f := ⌊x⌋
  let r := x - (f : ℚ)
  if r < 1 / 2 then f
  else if 1 / 2 < r then f + 1
  else if f % 2 = 0 then f else f + 1

/-- Round to 2 decimal places (`.round(2)`). -/
def round2 (x : ℚ) : ℚ :=
  ((roundHalfEven (x * 100) : ℚ)) / 100

/-- The three statistics of one summary cell. -/
structure Stats where
  mean : Option ℚ
  median : Option ℚ
  std : Option ℚ
deriving DecidableEq, Repr

/-- Statistics of one column slice, each rounded to 2 decimal places. -/
def statsOf (vals : List Val) : Stats :=
  { mean := (meanQ vals).map round2
    median := (medianQ vals).map round2
    std := stdCell vals }

/-- Embedding of the summary pipeline (src/app/main.py lines 122-126):
`df_view.groupby("Country")[metrics].agg(["mean", "median", "std"]).round(2)`.
One row per country present in the table, one cell per metric column present
in the table. -/
def summary (df : Table) (metrics : List String) : List (String × List (String × Stats)) :=
  (countryKeys df.rows).map (fun k =>
    (k, (metrics.filter (fun m => m ∈ df.cols)).map (fun m =>
      (m, statsOf (groupVals df.rows k m)))))

/-- Per-country means with missing means dropped: the stage
`groupby("Country")[metric].mean().dropna()` of the ranking pipeline
(src/app/main.py lines 133-139). -/
def rankMeans (df : Table) (metric : String) : List (String × ℚ) :=
  (countryKeys df.rows).filterMap
    (fun k => (meanQ (groupVals df.rows k metric)).map (fun m => (k, m)))

/-- The stage `.sort_values(ascending=False)`: groups ordered by descending
mean. -/
def rankSorted (df : Table) (metric : String) : List (String × ℚ) :=
  List.insertionSort (fun a b : String × ℚ => b.2 ≤ a.2) (rankMeans df metric)

/-- Embedding of the ranking pipeline (src/app/main.py lines 133-139):
group by country, take the mean of the metric, drop missing means, sort
descending, round to 2 decimal places. -/
def rank (df : Table) (metric : String) : List (String × ℚ) :=
  (rankSorted df metric).map (fun p => (p.1, round2 p.2))

instance : IsTotal (String × ℚ) (fun a b => b.2 ≤ a.2) :=
  ⟨fun a b => le_total b.2 a.2⟩

instance : IsTrans (String × ℚ) (fun a b => b.2 ≤ a.2) :=
  ⟨fun _ _ _ h1 h2 => le_trans h2 h1⟩

/-- Concrete ranking scenario: country A with GHI mean 120.5, country B with
mean 95, country C with no GHI data. -/
def rankTable : Table :=
  { cols := ["Country", "GHI"]
    rows := [[("Country", Val.str "A"), ("GHI", Val.num 120)],
             [("Country", Val.str "A"), ("GHI", Val.num 121)],
             [("Country", Val.str "B"), ("GHI", Val.num 95)],
             [("Country", Val.str "C"), ("GHI", Val.na)]] }

/-- C1: `rank` groups rows by country, computes the per-group mean of the
metric, drops groups whose mean is missing, sorts the remaining groups in
descending order of mean and rounds the means to 2 decimal places: a pair is
in the output iff its key is a group with a non-missing mean and its value is
that mean rounded; the sorted stage is descending in the (true) mean and the
output is its image under rounding; on the concrete scenario (A mean 120.5,
B mean 95, C no data) the result is [A 120.5, B 95] with C excluded. -/
theorem rank_spec :
    (∀ (df : Table) (metric : String) (k : String) (m : ℚ),
        (k, m) ∈ rank df metric
          ↔ ∃ q : ℚ, k ∈ countryKeys df.rows
              ∧ meanQ (groupVals df.rows k metric) = some q ∧ m = round2 q)
    ∧ (∀ (df : Table) (metric : String),
        List.Pairwise (fun a b : String × ℚ => b.2 ≤ a.2) (rankSorted df metric)
        ∧ rank df metric = (rankSorted df metric).map (fun p => (p.1, round2 p.2)))
    ∧ rank rankTable "GHI" = [("A", 120.5), ("B", 95)]
    ∧ "C" ∉ (rank rankTable "GHI").map Prod.fst := by
  have hconc : rank rankTable "GHI" = [("A", 120.5), ("B", 95)] := by
    have hkeys : countryKeys rankTable.rows = ["A", "B", "C"] := by decide
    have hA : groupVals rankTable.rows "A" "GHI" = [Val.num 120, Val.num 121] := by decide
    have hB : groupVals rankTable.rows "B" "GHI" = [Val.num 95] := by decide
    have hC : groupVals rankTable.rows "C" "GHI" = [Val.na] := by decide
    have hmA : meanQ [Val.num 120, Val.num 121] = some (241 / 2) := by
      simp [meanQ, toNum]
      norm_num
    have hmB : meanQ [Val.num 95] = some 95 := by
      simp [meanQ, toNum]
    have hmC : meanQ [Val.na] = none := by
      simp [meanQ, toNum]
    have hrm : rankMeans rankTable "GHI" = [("A", 241 / 2), ("B", 95)] := by
      rw [rankMeans, hkeys]
      simp [hA, hB, hC, hmA, hmB, hmC]
    have hsort : rankSorted rankTable "GHI" = [("A", 241 / 2), ("B", 95)] := by
      rw [rankSorted, hrm]
      norm_num [List.insertionSort, List.orderedInsert]
    rw [rank, hsort]
    have hr1 : round2 (241 / 2) = 120.5 := by
      norm_num [round2, roundHalfEven]
    have hr2 : round2 95 = 95 := by
      norm_num [round2, roundHalfEven]
    simp [hr1, hr2]
  refine ⟨?_, ?_, hconc, ?_⟩
  · intro df metric k m
    constructor
    · intro h
      rw [rank, List.mem_map] at h
      obtain ⟨p, hp, hpe⟩ := h
      rw [rankSorted, List.mem_insertionSort, rankMeans, List.mem_filterMap] at hp
      obtain ⟨k', hk', hf⟩ := hp
      rw [Option.map_eq_some'] at hf
      obtain ⟨q, hq, hpq⟩ := hf
      rw [← hpq] at hpe
      simp only [Prod.mk.injEq] at hpe
      obtain ⟨rfl, rfl⟩ := hpe
      exact ⟨q, hk', hq, rfl⟩
    · rintro ⟨q, hk, hq, rfl⟩
      rw [rank, List.mem_map]
      refine ⟨(k, q), ?_, rfl⟩
      rw [rankSorted, List.mem_insertionSort, rankMeans, List.mem_filterMap]
      exact ⟨k, hk, by rw [hq]; rfl⟩
  · intro df metric
    exact ⟨List.sorted_insertionSort (fun a b : String × ℚ => b.2 ≤ a.2)
      (rankMeans df metric), rfl⟩
  · rw [hconc]
    decide

/-- Concrete table with country A passing the daylight threshold and
country C failing it. -/
def filteredOutTable : Table :=
  { cols := ["Country", "GHI"]
    rows := [[("Country", Val.str "A"), ("GHI", Val.num 100)],
             [("Country", Val.str "C"), ("GHI", Val.num 5)]] }

/-- Counterexample to C2 as stated: country C is present before filtering,
has zero rows after daylight filtering at threshold 20, and the summary of
the filtered table has no row at all for C — the group is dropped, not kept
as a row of missing values. -/
theorem summary_drops_filtered_group :
    countryKeys filteredOutTable.rows = ["A", "C"]
    ∧ (summary (daylight_filter filteredOutTable "GHI" 20) ["GHI"]).map Prod.fst = ["A"]
    ∧ "C" ∉ (summary (daylight_filter filteredOutTable "GHI" 20) ["GHI"]).map Prod.fst := by
  refine ⟨by decide, ?_, ?_⟩
  · have h : daylight_filter filteredOutTable "GHI" 20
        = { cols := ["Country", "GHI"]
            rows := [[("Country", Val.str "A"), ("GHI", Val.num 100)]] } := by decide
    rw [h]
    simp [summary, countryKeys, keyOf, getVal, alistGet?]
  · have h : daylight_filter filteredOutTable "GHI" 20
        = { cols := ["Country", "GHI"]
            rows := [[("Country", Val.str "A"), ("GHI", Val.num 100)]] } := by decide
    rw [h]
    simp [summary, countryKeys, keyOf, getVal, alistGet?]

/-- Concrete table with one row for country A whose GHI cell is missing. -/
def allNaTable : Table :=
  { cols := ["Country", "GHI"]
    rows := [[("Country", Val.str "A"), ("GHI", Val.na)]] }

/-- C2 (amended): `summary` groups rows by country and produces exactly one
row per country present in its input, in ascending key order; each row holds,
for each requested metric column present in the table, the rounded mean,
median and sample standard deviation of the group's values; a group with
zero non-missing values for a column yields missing entries for that
column's three statistics — not an error and not a dropped row.  A country
with zero rows in the input (for example one removed entirely by filtering)
does not appear at all, which is where the original claim fails
(`summary_drops_filtered_group`). -/
theorem summary_spec :
    (∀ (df : Table) (metrics : List String),
        (summary df metrics).map Prod.fst = countryKeys df.rows
        ∧ (∀ (k : String) (cells : List (String × Stats)),
            (k, cells) ∈ summary df metrics →
              cells = (metrics.filter (fun m => m ∈ df.cols)).map
                (fun m => (m, statsOf (groupVals df.rows k m)))))
    ∧ (∀ vals : List Val, vals.filterMap toNum = [] →
        statsOf vals = { mean := none, median := none, std := none })
    ∧ summary allNaTable ["GHI"]
        = [("A", [("GHI", { mean := none, median := none, std := none })])] := by
  have hstats : ∀ vals : List Val, vals.filterMap toNum = [] →
      statsOf vals = { mean := none, median := none, std := none } := by
    intro vals h
    simp [statsOf, meanQ, medianQ, sampleVar, stdCell, sortQ, h]
  refine ⟨?_, hstats, ?_⟩
  · intro df metrics
    constructor
    · rw [summary, List.map_map]
      exact (List.map_congr_left fun a _ => rfl).trans (List.map_id _)
    · intro k cells h
      rw [summary, List.mem_map] at h
      obtain ⟨k', _, he⟩ := h
      simp only [Prod.mk.injEq] at he
      obtain ⟨rfl, rfl⟩ := he
      rfl
  · have h1 : countryKeys allNaTable.rows = ["A"] := by decide
    have h2 : groupVals allNaTable.rows "A" "GHI" = [Val.na] := by decide
    have h3 : statsOf [Val.na] = { mean := none, median := none, std := none } :=
      hstats [Val.na] (by decide)
    rw [summary, h1]
    simp [h2, h3]
    decide

/-- Witness for C2 (amended) on a concrete all-non-numeric slice. -/
theorem summary_spec_witness :
    statsOf [Val.str "cloudy"] = { mean := none, median := none, std := none } :=
  summary_spec.2.1 [Val.str "cloudy"] (by decide)

/-- Outcome of parsing one CSV file (`pd.read_csv`): a table, or the
description of the raised error. -/
inductive ParseResult where
  | ok : Table → ParseResult
  | err : String → ParseResult
deriving DecidableEq, Repr

/-- One input file of the directory-scan ingestion loop: resolved country
label, path and parse outcome. -/
structure SrcFile where
  country : String
  path : String
  content : ParseResult
deriving DecidableEq, Repr

/-- One entry of the load-status log: `Loaded: <label> ← <path>` or the
failure message for a path. -/
inductive Status where
  | loaded : String → String → Status
  | failed : String → String → Status
deriving DecidableEq, Repr

/-- Whether a status entry records a failure. -/
def Status.isFailed : Status → Bool
  | Status.loaded _ _ => false
  | Status.failed _ _ => true

/-- Setting one cell of a row (`df["Country"] = country` acts on each row):
overwrite the existing entry or append a new one. -/
def rowSet (r : Row) (c : String) (v : Val) : Row :=
  if (alistGet? c r).isSome then
    r.map (fun p => if p.1 = c then (p.1, v) else p)
  else r ++ [(c, v)]

/-- Embedding of `df["Country"] = country`: every row gets the label, and the
column is appended to the column list when new. -/
def attachCountry (country : String) (df : Table) : Table :=
  { cols := if "Country" ∈ df.cols then df.cols else df.cols ++ ["Country"]
    rows := df.rows.map (fun r => rowSet r "Country" (Val.str country)) }

/-- One iteration of the ingestion loop (src/app/main.py lines 42-49): on a
successful parse, attach the country label, collect the table and log a
success; on a parse failure, only log the failure and continue. -/
def ingestStep (acc : List Table × List Status) (f : SrcFile) : List Table × List Status :=
  match f.content with
  | ParseResult.ok df =>
      (acc.1 ++ [attachCountry f.country df], acc.2 ++ [Status.loaded f.country f.path])
  | ParseResult.err e => (acc.1, acc.2 ++ [Status.failed f.path e])

/-- The whole ingestion loop: tables of the successfully parsed files in
order, and one status entry per file. -/
def ingest (files : List SrcFile) : List Table × List Status :=
  files.foldl ingestStep ([], [])

/-- The labelled table a file contributes, when it parses. -/
def okTable (f : SrcFile) : Option Table :=
  match f.content with
  | ParseResult.ok df => some (attachCountry f.country df)
  | ParseResult.err _ => none

/-- The status entry of one file. -/
def statusOf (f : SrcFile) : Status :=
  match f.content with
  | ParseResult.ok _ => Status.loaded f.country f.path
  | ParseResult.err e => Status.failed f.path e

/-- Whether a file's content fails to parse. -/
def isErr (f : SrcFile) : Bool :=
  match f.content with
  | ParseResult.ok _ => false
  | ParseResult.err _ => true

/-- Column union keeping first appearances, as concatenation orders the
united columns. -/
def unionCols (ls : List (List String)) : List String :=
  ls.flatten.foldl (fun acc c => if c ∈ acc then acc else acc ++ [c]) []

/-- Embedding of `pd.concat(dfs, ignore_index=True)`: rows are concatenated
in order; columns are united (a row simply lacks entries for columns its
table did not have, and such cells read as missing). -/
def concatTables (dfs : List Table) : Table :=
  { cols := unionCols (dfs.map Table.cols)
    rows := (dfs.map Table.rows).flatten }

/-- The Unified Table (src/app/main.py lines 72-76): absent when no file
loaded (the app stops before `pd.concat` in that case). -/
def df_all (dfs : List Table) : Option Table :=
  if dfs.isEmpty then none else some (concatTables dfs)

theorem ingest_foldl (files : List SrcFile) :
    ∀ acc : List Table × List Status,
      files.foldl ingestStep acc
        = (acc.1 ++ files.filterMap okTable, acc.2 ++ files.map statusOf) := by
  induction files with
  | nil => intro acc; simp
  | cons f fs ih =>
      intro acc
      rw [List.foldl_cons, ih]
      cases hf : f.content with
      | ok df =>
          simp [ingestStep, okTable, statusOf, hf]
      | err e =>
          simp [ingestStep, okTable, statusOf, hf]

/-- Closed form of the ingestion loop. -/
theorem ingest_eq (files : List SrcFile) :
    ingest files = (files.filterMap okTable, files.map statusOf) := by
  rw [ingest, ingest_foldl]
  simp

theorem length_filterMap_okTable (files : List SrcFile) :
    (files.filterMap okTable).length + (files.filter isErr).length = files.length := by
  induction files with
  | nil => rfl
  | cons f fs ih =>
      cases hf : f.content with
      | ok df =>
          have h1 : okTable f = some (attachCountry f.country df) := by
            rw [okTable, hf]
          have h2 : isErr f = false := by rw [isErr, hf]
          simp [h1, h2, ih]
          omega
      | err e =>
          have h1 : okTable f = none := by rw [okTable, hf]
          have h2 : isErr f = true := by rw [isErr, hf]
          simp [h1, h2]
          omega

theorem statusOf_isFailed (f : SrcFile) : (statusOf f).isFailed = isErr f := by
  cases hf : f.content <;> simp [statusOf, isErr, Status.isFailed, hf]

/-- C8: partial-failure semantics of ingestion: when exactly one of the
input files fails to parse, the status log has one entry per file with
exactly one failure entry, the collected tables are exactly the labelled
tables of the parsing files (one fewer than the number of files), and the
Unified Table, when defined, holds exactly their rows in order. -/
theorem ingest_partial_failure (files : List SrcFile)
    (h : (files.filter isErr).length = 1) :
    (ingest files).2.length = files.length
    ∧ ((ingest files).2.filter Status.isFailed).length = 1
    ∧ (ingest files).1 = files.filterMap okTable
    ∧ (ingest files).1.length = files.length - 1
    ∧ (∀ t : Table, df_all (ingest files).1 = some t →
        t.rows = ((files.filterMap okTable).map Table.rows).flatten) := by
  have he := ingest_eq files
  have hlen := length_filterMap_okTable files
  refine ⟨?_, ?_, ?_, ?_, ?_⟩
  · rw [he]
    simp
  · rw [he]
    have hcomp : (files.map statusOf).filter Status.isFailed
        = (files.filter (fun f => Status.isFailed (statusOf f))).map statusOf := by
      rw [List.filter_map]
      rfl
    have hpred : files.filter (fun f => Status.isFailed (statusOf f))
        = files.filter isErr := by
      apply List.filter_congr
      intro f _
      rw [statusOf_isFailed]
    simp only [hcomp, hpred, List.length_map]
    exact h
  · rw [he]
  · rw [he]
    simp only
    omega
  · intro t ht
    rw [he] at ht
    simp only [df_all] at ht
    by_cases hempty : (files.filterMap okTable).isEmpty
    · rw [if_pos hempty] at ht
      cases ht
    · rw [if_neg hempty] at ht
      cases ht
      rfl

/-- Concrete three-file batch whose middle file is malformed. -/
def threeFiles : List SrcFile :=
  [{ country := "Benin", path := "data/benin_clean.csv"
     content := ParseResult.ok { cols := ["GHI"], rows := [[("GHI", Val.num 100)]] } },
   { country := "Togo", path := "data/togo_clean.csv"
     content := ParseResult.err "ParserError: bad line" },
   { country := "Sierra Leone", path := "data/sierraleone_clean.csv"
     content := ParseResult.ok { cols := ["GHI"], rows := [[("GHI", Val.num 90)]] } }]

/-- Witness for C8 on the concrete three-file batch. -/
theorem ingest_partial_failure_witness :
    (ingest threeFiles).2.length = threeFiles.length
    ∧ ((ingest threeFiles).2.filter Status.isFailed).length = 1
    ∧ (ingest threeFiles).1 = threeFiles.filterMap okTable
    ∧ (ingest threeFiles).1.length = threeFiles.length - 1
    ∧ (∀ t : Table, df_all (ingest threeFiles).1 = some t →
        t.rows = ((threeFiles.filterMap okTable).map Table.rows).flatten) :=
  ingest_partial_failure threeFiles (by decide)

/-- Split a character list at every dot, the embedding of Python
`name.split(".")`: always returns at least one (possibly empty) group. -/
def splitDot : List Char → List (List Char)
  | [] => [[]]
  | c :: rest =>
      if c = '.' then [] :: splitDot rest
      else
        match splitDot rest with
        | [] => [[c]]
        | g :: gs => (c :: g) :: gs

/-- Embedding of `.replace("_", " ")`. -/
def replaceUnderscore (cs : List Char) : List Char :=
  cs.map (fun c => if c = '_' then ' ' else c)

/-- Embedding of Python `str.title()` over ASCII: an alphabetic character is
uppercased when the previous character is not alphabetic and lowercased
otherwise; other characters pass through. -/
def titleAux : List Char → Bool → List Char
  | [], _ => []
  | c :: cs, prevAlpha =>
      (if c.isAlpha then (if prevAlpha then c.toLower else c.toUpper) else c)
        :: titleAux cs c.isAlpha

/-- Title-case a character list. -/
def pyTitle (cs : List Char) : List Char :=
  titleAux cs false

/-- Embedding of the upload label guess (src/app/main.py line 57):
`f.name.split(".")[0].replace("_", " ").title()` — the part of the file name
before the FIRST dot, underscores replaced by spaces, title-cased. -/
def guessLabel (name : String) : String :=
  (pyTitle (replaceUnderscore ((splitDot name.data).headD []))).asString

/-- Joining groups back with dots. -/
def joinDots (gs : List (List Char)) : List Char :=
  List.intercalate ['.'] gs

/-- The claim's reading, following the spec's words: strip the extension
(the part from the LAST dot on, when there is one), replace separators with
spaces, title-case.  Stated only to compare with `guessLabel`, which the
source derives from the part before the FIRST dot. -/
def specLabel (name : String) : String :=
  let parts := splitDot name.data
  let stem := if parts.length ≤ 1 then name.data else joinDots parts.dropLast
  (pyTitle (replaceUnderscore stem)).asString

/-- Counterexample to C9 as stated: for the upload name `a.b.csv` the code
takes the part before the first dot and guesses "A", while stripping the
extension would keep `a.b` and give "A.B". -/
theorem guess_label_first_dot_cex :
    guessLabel "a.b.csv" = "A"
    ∧ specLabel "a.b.csv" = "A.B"
    ∧ guessLabel "a.b.csv" ≠ specLabel "a.b.csv" := by
  refine ⟨by decide, by decide, by decide⟩

theorem splitDot_no_dot (cs : List Char) (h : '.' ∉ cs) : splitDot cs = [cs] := by
  induction cs with
  | nil => rfl
  | cons c cs ih =>
      rw [List.mem_cons, not_or] at h
      obtain ⟨h1, h2⟩ := h
      rw [splitDot, if_neg (fun he => h1 he.symm), ih h2]

theorem splitDot_ne_nil (cs : List Char) : splitDot cs ≠ [] := by
  cases cs with
  | nil => simp [splitDot]
  | cons c rest =>
      rw [splitDot]
      split
      · simp
      · split
        · simp
        · simp

theorem splitDot_append_dot (cs ds : List Char) (h : '.' ∉ cs) :
    splitDot (cs ++ '.' :: ds) = cs :: splitDot ds := by
  induction cs with
  | nil =>
      simp only [List.nil_append]
      rw [splitDot, if_pos rfl]
  | cons c cs ih =>
      rw [List.mem_cons, not_or] at h
      obtain ⟨h1, h2⟩ := h
      rw [List.cons_append, splitDot, if_neg (fun he => h1 he.symm), ih h2]

/-- C9 (amended): the default upload label is the part of the file name
before the FIRST dot, with underscores replaced by spaces, title-cased.  For
file names of the usual `stem.ext` shape (no further dots) this coincides
with the claim's strip-the-extension reading; `guess_label_first_dot_cex`
shows they part ways when the stem itself contains a dot. -/
theorem guess_label_spec (s e : String) (hs : '.' ∉ s.data) (he : '.' ∉ e.data) :
    guessLabel (s ++ "." ++ e) = (pyTitle (replaceUnderscore s.data)).asString
    ∧ guessLabel (s ++ "." ++ e) = specLabel (s ++ "." ++ e) := by
  have hdata : (s ++ "." ++ e).data = s.data ++ '.' :: e.data := by
    simp [String.data_append]
  have hsplit : splitDot (s ++ "." ++ e).data = s.data :: splitDot e.data := by
    rw [hdata, splitDot_append_dot _ _ hs]
  have hse : splitDot e.data = [e.data] := splitDot_no_dot _ he
  constructor
  · rw [guessLabel, hsplit]
    rfl
  · rw [guessLabel, specLabel, hsplit, hse]
    simp [joinDots, List.intercalate]

/-- Witness for C9 (amended) on the file name `benin_clean.csv`. -/
theorem guess_label_spec_witness :
    guessLabel ("benin_clean" ++ "." ++ "csv")
      = (pyTitle (replaceUnderscore ("benin_clean" : String).data)).asString
    ∧ guessLabel ("benin_clean" ++ "." ++ "csv")
      = specLabel ("benin_clean" ++ "." ++ "csv") :=
  guess_label_spec "benin_clean" "csv" (by decide) (by decide)
